import Mathlib

/-!
# Plurima plugin host runtime: verification of the registry and resolution core

The package `plurima-plugin-api` ships only TypeScript type declarations
(`src/index.d.ts`); the runtime implementation is injected by the host.
The behavioural components (identifier namespacer, command registry,
settings tree, view registry, palette provider registry, unload cascade)
are therefore modelled from the specification's own words, while the
declared API signatures (in particular the `FrameworkAdapter` contract)
are embedded directly from `index.d.ts`.

TypeScript strings are modelled as lists of characters (`Ident`),
TypeScript `number` values as integers, and settled futures as `Except`.
-/

namespace Plurima

/-- Identifiers (TS strings) modelled as lists of characters. -/
abbrev Ident := List Char

/-- The fixed ID separator `'.'`. -/
def sep : Char := '.'

/-- Modelled from the spec: `qualify(ownerId, localId)` deterministically
concatenates owner and local ID with the fixed separator `.`. -/
def qualify (owner localId : Ident) : Ident :=
  owner ++ [sep] ++ localId

/-- Modelled from the spec: `resolve(ownerId, maybeQualifiedId)` — if the
input already contains the separator it is treated as fully qualified and
returned unchanged; otherwise it is qualified against `ownerId`. -/
def resolve (owner id : Ident) : Ident :=
  if sep ∈ id then id else qualify owner id

/-- The registry-detected error kinds of §7 of the spec. -/
inductive HostError
  | notFound
  | conflict
  | validationError
  | orderingViolation
  | handlerFailure
deriving DecidableEq

/-- Runtime values flowing through handlers and settings (TS `number`
modelled as `Int`). -/
inductive Value
  | bool (b : Bool)
  | num (n : Int)
  | str (s : Ident)
  | unit
deriving DecidableEq

/-- Modelled from the spec: what a command handler does when invoked — it
may return a value synchronously, return a future (already settled here,
either resolving or rejecting), or throw synchronously. -/
inductive HandlerOutcome
  | value (v : Value)
  | future (r : Except Value Value)
  | throws (e : Value)

/-- A command definition as handed to `commands.register`
(`PluginCommandDefinition` in `index.d.ts`): a local ID, optional
metadata, and a handler. -/
structure CommandDefinition where
  id : Ident
  title : Option Ident := none
  handler : List Value → HandlerOutcome

/-- A stored command: fully-qualified ID, owning extension, metadata and
handler. -/
structure Command where
  owner : Ident
  fqid : Ident
  title : Option Ident := none
  handler : List Value → HandlerOutcome

/-- Modelled from the spec: the command registry maps fully-qualified
command IDs to handlers with metadata. -/
structure CommandRegistry where
  cmds : List Command

/-- Lookup of a stored command by fully-qualified ID. -/
def findCmd (r : CommandRegistry) (q : Ident) : Option Command :=
  r.cmds.find? (fun c => c.fqid == q)

/-- Modelled from the spec: `register(def)` qualifies `def.id` against the
registering extension, rejects with Conflict on collision with an existing
command from a different extension (leaving the registry unchanged), and
replaces the stored handler on re-registration by the same owner. -/
def registerCommand (r : CommandRegistry) (owner : Ident) (d : CommandDefinition) :
    CommandRegistry × Option HostError :=
  let q := qualify owner d.id
  match findCmd r q with
  | some c =>
      if c.owner == owner then
        (⟨{ owner := owner, fqid := q, title := d.title, handler := d.handler } ::
            r.cmds.filter (fun c => c.fqid != q)⟩, none)
      else (r, some .conflict)
  | none =>
      (⟨{ owner := owner, fqid := q, title := d.title, handler := d.handler } :: r.cmds⟩, none)

/-- Modelled from the spec: `execute(id, ...args)` resolves `id` relative
to the caller's extension, looks up the handler; if absent the returned
future fails with NotFound; otherwise the handler's return value (sync or
future) is wrapped uniformly into a future, and a synchronous throw or a
rejecting future becomes a failed future — `execute` itself never throws
synchronously (it is a total function into settled futures). -/
def executeCommand (r : CommandRegistry) (caller id : Ident) (args : List Value) :
    Except HostError Value :=
  match findCmd r (resolve caller id) with
  | none => .error .notFound
  | some c =>
      match c.handler args with
      | .value v => .ok v
      | .future (.ok v) => .ok v
      | .future (.error _) => .error .handlerFailure
      | .throws _ => .error .handlerFailure

/-- A handler adding its two numeric arguments, `(a, b) => a + b`
(throwing on an argument mismatch). -/
def addHandler : List Value → HandlerOutcome
  | [.num a, .num b] => .value (.num (a + b))
  | _ => .throws .unit

/-- A handler returning `unit` synchronously. -/
def unitHandler : List Value → HandlerOutcome := fun _ => .value .unit

/-- A registry holding the single command `ext.cmd` with `addHandler`. -/
def demoCmdRegistry : CommandRegistry :=
  ⟨[{ owner := ['e', 'x', 't'], fqid := qualify ['e', 'x', 't'] ['c', 'm', 'd'],
      handler := addHandler }]⟩

/-- The command `a.b.c` owned by extension `a` (local ID `b.c`). -/
def demoCmdA : Command :=
  { owner := ['a'], fqid := qualify ['a'] ['b', '.', 'c'], handler := unitHandler }

/-- A registry holding only `demoCmdA`. -/
def demoConflictRegistry : CommandRegistry := ⟨[demoCmdA]⟩

/-- The setting types of `SettingType` in `index.d.ts`. -/
inductive SettingType
  | boolean
  | string
  | number
  | select
  | radio
  | filepath
  | color
deriving DecidableEq

/-- An option for `select`/`radio` settings (`SettingOption` in
`index.d.ts`). -/
structure SettingOption where
  label : Ident
  value : Value
deriving DecidableEq

/-- A setting leaf (`SettingDefinition` in `index.d.ts`): typed, with a
default and optional bounds/options. -/
structure SettingDefinition where
  id : Ident
  label : Ident := []
  type : SettingType
  default : Value
  options : List SettingOption := []
  min : Option Int := none
  max : Option Int := none
deriving DecidableEq

/-- A settings subsection (`SettingSubsection` in `index.d.ts`). -/
structure SettingSubsection where
  id : Ident
  label : Ident := []
  settings : List SettingDefinition
deriving DecidableEq

/-- A settings section (`SettingSection` in `index.d.ts`), tagged with
its owning extension. -/
structure SettingSection where
  id : Ident
  label : Ident := []
  owner : Ident
  subsections : List SettingSubsection
deriving DecidableEq

/-- The dotted path `section.subsection.settingId` addressing a leaf. -/
def leafPath (secId subId leafId : Ident) : Ident :=
  secId ++ [sep] ++ subId ++ [sep] ++ leafId

/-- Resolution of a dotted path to the leaf it addresses, if any. -/
def findLeaf (secs : List SettingSection) (key : Ident) : Option SettingDefinition :=
  secs.findSome? fun s =>
    s.subsections.findSome? fun sub =>
      sub.settings.find? fun leaf => leafPath s.id sub.id leaf.id == key

/-- Modelled from the spec: validation of a value against the leaf's
declared `type`, `min`/`max` bounds and `options`. -/
def validValue (leaf : SettingDefinition) (v : Value) : Bool :=
  match leaf.type, v with
  | .boolean, .bool _ => true
  | .string, .str _ => true
  | .filepath, .str _ => true
  | .color, .str _ => true
  | .number, .num n =>
      (match leaf.min with | some m => decide (m ≤ n) | none => true) &&
      (match leaf.max with | some m => decide (n ≤ m) | none => true)
  | .select, w => (leaf.options.map (fun o => o.value)).contains w
  | .radio, w => (leaf.options.map (fun o => o.value)).contains w
  | _, _ => false

/-- An explicit override stored for a settings path, tagged with the
extension that created it. -/
structure SettingOverride where
  key : Ident
  value : Value
  owner : Ident
deriving DecidableEq

/-- A change subscriber registered via `onChange` on an exact path. -/
structure Subscriber where
  id : Nat
  key : Ident
deriving DecidableEq

/-- Modelled from the spec: the settings tree — registered sections,
explicit overrides, and the change subscribers (with a fresh-ID counter). -/
structure SettingsState where
  sections : List SettingSection
  overrides : List SettingOverride
  subs : List Subscriber
  nextSub : Nat
deriving DecidableEq

/-- Modelled from the spec: `get(path)` returns the override if present,
else the declared default of the leaf at `path`, else `undefined` (here
`none`) when the path does not resolve to a known leaf. -/
def getSetting (st : SettingsState) (key : Ident) : Option Value :=
  match st.overrides.find? (fun o => o.key == key) with
  | some o => some o.value
  | none => (findLeaf st.sections key).map (fun leaf => leaf.default)

/-- Modelled from the spec: `set(path, value)` validates the value against
the leaf's declared type/bounds/options before applying; it fails with
NotFound on an unknown path and with ValidationError on an invalid value,
leaving the store unchanged; on success it stores the override and
synchronously notifies every subscriber registered on that exact path —
the returned list is the notification delivery `(subscriberId, newValue)`,
in order. -/
def setSetting (st : SettingsState) (owner key : Ident) (v : Value) :
    SettingsState × Option HostError × List (Nat × Value) :=
  match findLeaf st.sections key with
  | none => (st, some .notFound, [])
  | some leaf =>
      if validValue leaf v then
        ({ st with overrides :=
             { key := key, value := v, owner := owner } ::
               st.overrides.filter (fun o => o.key != key) },
         none,
         (st.subs.filter (fun s => s.key == key)).map (fun s => (s.id, v)))
      else (st, some .validationError, [])

/-- Modelled from the spec: `onChange(path, callback)` registers a
subscriber (identified by a fresh ID standing for the callback) invoked
on every successful `set` to that path, and returns the subscriber ID the
disposer closes over. -/
def onChange (st : SettingsState) (key : Ident) : SettingsState × Nat :=
  ({ st with
      subs := st.subs ++ [{ id := st.nextSub, key := key }]
      nextSub := st.nextSub + 1 },
   st.nextSub)

/-- Modelled from the spec: the disposer returned by `onChange` — removes
the subscriber with the given ID; removing an absent ID is a no-op, so
disposal is idempotent. -/
def unsubscribe (st : SettingsState) (subId : Nat) : SettingsState :=
  { st with subs := st.subs.filter (fun s => s.id != subId) }

/-- The leaf `z`, typed `number` with `default 14`, `min 8`, `max 32`. -/
def demoLeafZ : SettingDefinition :=
  { id := ['z'], type := .number, default := .num 14, min := some 8, max := some 32 }

/-- A settings state declaring only the leaf at path `x.y.z`. -/
def demoSettings : SettingsState :=
  { sections := [
      { id := ['x']
        owner := ['x']
        subsections := [{ id := ['y'], settings := [demoLeafZ] }] }]
    overrides := []
    subs := []
    nextSub := 0 }

/-- The dotted path `x.y.z`. -/
def keyXYZ : Ident := ['x', '.', 'y', '.', 'z']

/-- A view definition (`ViewDefinition` in `index.d.ts`; the component is
opaque to the registry). -/
structure ViewDefinition where
  id : Ident
  title : Ident := []
  framework : Ident := []
  component : Unit := ()
deriving DecidableEq

/-- A registered view: fully-qualified ID, owning extension, and the
stored definition. -/
structure ViewReg where
  owner : Ident
  fqid : Ident
  definition : ViewDefinition
deriving DecidableEq

/-- A view instance (`ViewInstance` in `index.d.ts`): the live mounted
projection of a view definition, with its `mounted` flag and current
props. -/
structure ViewInst where
  owner : Ident
  viewId : Ident
  props : List (Ident × Value) := []
  mounted : Bool
deriving DecidableEq

/-- Modelled from the spec: the view registry — registered definitions and
live instances. -/
structure ViewsState where
  defs : List ViewReg
  instances : List ViewInst
deriving DecidableEq

/-- Lookup of a registered view by fully-qualified ID. -/
def findView (vs : ViewsState) (q : Ident) : Option ViewReg :=
  vs.defs.find? (fun d => d.fqid == q)

/-- The number of mounted instances for a fully-qualified view ID. -/
def mountedCount (vs : ViewsState) (q : Ident) : Nat :=
  vs.instances.countP (fun i => i.viewId == q && i.mounted)

/-- Modelled from the spec: `open(id)` resolves to a fully-qualified ID,
fails with NotFound when no definition is stored under it, reuses the
live mounted instance when one exists, and otherwise mounts exactly one
new instance (`mounted = true`). -/
def openView (vs : ViewsState) (caller viewId : Ident) : ViewsState × Option HostError :=
  let q := resolve caller viewId
  match findView vs q with
  | none => (vs, some .notFound)
  | some d =>
      match vs.instances.find? (fun i => i.viewId == q && i.mounted) with
      | some _ => (vs, none)
      | none =>
          ({ vs with instances :=
               { owner := d.owner, viewId := q, mounted := true } :: vs.instances },
           none)

/-- Modelled from the spec: an instance's `dispose` unmounts it, setting
`mounted` to `false`. -/
def disposeInst (i : ViewInst) : ViewInst := { i with mounted := false }

/-- Modelled from the spec: `update` is valid only while the instance is
mounted; on an unmounted instance it is an error (`none`). -/
def updateInst (i : ViewInst) (props : List (Ident × Value)) : Option ViewInst :=
  if i.mounted then some { i with props := props } else none

/-- The view `ext.main` owned by `ext`. -/
def demoViewReg : ViewReg :=
  { owner := ['e', 'x', 't'], fqid := qualify ['e', 'x', 't'] ['m', 'a', 'i', 'n'],
    definition := { id := ['m', 'a', 'i', 'n'] } }

/-- A view registry holding only `demoViewReg`, with no live instance. -/
def demoViews : ViewsState := { defs := [demoViewReg], instances := [] }

/-- A palette provider (`PaletteProvider` in `index.d.ts`), tagged with
its owning extension; `pfix` is the source's `prefix` field, `none`
modelling `null`. -/
structure PaletteProvider where
  owner : Ident
  id : Ident
  pfix : Option Ident
  priority : Int := 0
deriving DecidableEq

/-- `startsWith q p` — whether `q` starts with the literal `p`. -/
def startsWith : Ident → Ident → Bool
  | _, [] => true
  | [], _ :: _ => false
  | c :: cs, d :: ds => c == d && startsWith cs ds

/-- `stripPfx q p` — `q` with its leading `p` stripped off. -/
def stripPfx (q p : Ident) : Ident := q.drop p.length

/-- The length of a provider's activation string (0 when `null`). -/
def pfxLen (p : PaletteProvider) : Nat := (p.pfix.getD []).length

/-- Whether a provider's non-null activation string is a literal leading
part of the query. -/
def pfxMatches (p : PaletteProvider) (q : Ident) : Bool :=
  match p.pfix with
  | some s => startsWith q s
  | none => false

/-- Modelled from the spec: among the providers whose non-null activation
string matches the query, the single one selected by longest match (ties
broken by registration order). -/
def selectPrefixed (ps : List PaletteProvider) (q : Ident) : Option PaletteProvider :=
  (ps.filter (fun p => pfxMatches p q)).foldl
    (fun acc p =>
      match acc with
      | none => some p
      | some a => if pfxLen p > pfxLen a then some p else acc)
    none

/-- Stable insertion keeping priorities descending. -/
def insertDesc (p : PaletteProvider) : List PaletteProvider → List PaletteProvider
  | [] => [p]
  | a :: rest => if a.priority ≥ p.priority then a :: insertDesc p rest else p :: a :: rest

/-- Modelled from the spec: ordering of the always-active providers by
descending `priority`, ties broken by registration order (stable). -/
def sortByPriority (ps : List PaletteProvider) : List PaletteProvider :=
  ps.foldl (fun acc p => insertDesc p acc) []

/-- Modelled from the spec: query dispatch — the providers queried for a
raw query, each paired with the query it receives: every `null`-activation
provider (in priority order) receives the query unmodified, and the single
longest-match provider receives the query with its activation string
stripped. -/
def queried (ps : List PaletteProvider) (q : Ident) : List (PaletteProvider × Ident) :=
  (sortByPriority (ps.filter (fun p => p.pfix.isNone))).map (fun p => (p, q)) ++
  (match selectPrefixed ps q with
   | some p => [(p, stripPfx q (p.pfix.getD []))]
   | none => [])

/-- A provider with activation string `>`. -/
def demoProvGT : PaletteProvider := { owner := ['h'], id := ['g'], pfix := some ['>'] }

/-- A provider with activation string `>>`. -/
def demoProvGG : PaletteProvider := { owner := ['h'], id := ['d'], pfix := some ['>', '>'] }

/-- A registry holding both demo providers. -/
def demoProvs : List PaletteProvider := [demoProvGT, demoProvGG]

/-- The raw query `>>x`. -/
def demoQuery : Ident := ['>', '>', 'x']

/-- Modelled from the spec: the host-wide state — one store per registry
kind, each keyed by owner for cascading cleanup. -/
structure HostState where
  commands : CommandRegistry
  views : ViewsState
  settings : SettingsState
  providers : List PaletteProvider

/-- Modelled from the spec: unloading an extension enumerates and disposes
every entity keyed by that extension's identity — its commands, view
definitions and instances, settings sections and overrides, and palette
providers — leaving everything owned by other extensions in place. -/
def unloadExtension (h : HostState) (e : Ident) : HostState :=
  { commands := ⟨h.commands.cmds.filter (fun c => c.owner != e)⟩,
    views := { defs := h.views.defs.filter (fun d => d.owner != e),
               instances := h.views.instances.filter (fun i => i.owner != e) },
    settings := { h.settings with
      sections := h.settings.sections.filter (fun s => s.owner != e),
      overrides := h.settings.overrides.filter (fun o => o.owner != e) },
    providers := h.providers.filter (fun p => p.owner != e) }

/-- Registry well-formedness: fully-qualified command and view IDs and
override keys are unique (what `register`/`set` maintain). -/
def HostWF (h : HostState) : Prop :=
  h.commands.cmds.Pairwise (fun a b => a.fqid ≠ b.fqid) ∧
  h.views.defs.Pairwise (fun a b => a.fqid ≠ b.fqid) ∧
  h.settings.overrides.Pairwise (fun a b => a.key ≠ b.key)

/-- The command `a.c` owned by extension `a`. -/
def demoCmdHostA : Command :=
  { owner := ['a'], fqid := qualify ['a'] ['c'], handler := unitHandler }

/-- The command `b.c` owned by extension `b`. -/
def demoCmdHostB : Command :=
  { owner := ['b'], fqid := qualify ['b'] ['c'], handler := unitHandler }

/-- The path `a.s.z` of the leaf declared by extension `a`. -/
def keyHostA : Ident := ['a', '.', 's', '.', 'z']

/-- The path `b.s.z` of the leaf declared by extension `b`. -/
def keyHostB : Ident := ['b', '.', 's', '.', 'z']

/-- A provider owned by extension `a`. -/
def demoProvHostA : PaletteProvider := { owner := ['a'], id := ['p'], pfix := none }

/-- A provider owned by extension `b`. -/
def demoProvHostB : PaletteProvider := { owner := ['b'], id := ['q'], pfix := none }

/-- The view `a.v` owned by extension `a`. -/
def demoViewHostA : ViewReg :=
  { owner := ['a'], fqid := qualify ['a'] ['v'], definition := { id := ['v'] } }

/-- The view `b.v` owned by extension `b`. -/
def demoViewHostB : ViewReg :=
  { owner := ['b'], fqid := qualify ['b'] ['v'], definition := { id := ['v'] } }

/-- The mounted instance of `a.v`. -/
def demoInstHostA : ViewInst :=
  { owner := ['a'], viewId := qualify ['a'] ['v'], mounted := true }

/-- The mounted instance of `b.v`. -/
def demoInstHostB : ViewInst :=
  { owner := ['b'], viewId := qualify ['b'] ['v'], mounted := true }

/-- The section declared by extension `a`, with the one leaf `a.s.z`. -/
def demoSecHostA : SettingSection :=
  { id := ['a'], owner := ['a'], subsections := [{ id := ['s'], settings := [demoLeafZ] }] }

/-- The section declared by extension `b`, with the one leaf `b.s.z`. -/
def demoSecHostB : SettingSection :=
  { id := ['b'], owner := ['b'], subsections := [{ id := ['s'], settings := [demoLeafZ] }] }

/-- The override at `a.s.z` created by extension `a`. -/
def demoOvrHostA : SettingOverride := { key := keyHostA, value := .num 9, owner := ['a'] }

/-- The override at `b.s.z` created by extension `b`. -/
def demoOvrHostB : SettingOverride := { key := keyHostB, value := .num 10, owner := ['b'] }

/-- A host with two extensions `a` and `b`, each owning one command, one
view with a mounted instance, one settings section with an override, and
one palette provider. -/
def demoHost : HostState :=
  { commands := ⟨[demoCmdHostA, demoCmdHostB]⟩
    views := { defs := [demoViewHostA, demoViewHostB]
               instances := [demoInstHostA, demoInstHostB] }
    settings := { sections := [demoSecHostA, demoSecHostB]
                  overrides := [demoOvrHostA, demoOvrHostB]
                  subs := []
                  nextSub := 0 }
    providers := [demoProvHostA, demoProvHostB] }

/-- A deep embedding of the TypeScript types occurring in the declared
`FrameworkAdapter` and command APIs of `src/index.d.ts`. -/
inductive TsType
  | htmlElement
  | viewDefinition
  | viewInstance
  | record
  | stringT
  | unknown
  | void
  | promise (t : TsType)
deriving DecidableEq

/-- The declared signature of a TypeScript method: parameter types and
return type. -/
structure TsFunSig where
  params : List TsType
  ret : TsType
deriving DecidableEq

/-- `mount(container: HTMLElement, definition: ViewDefinition): ViewInstance`
(`FrameworkAdapter.mount`, `src/index.d.ts` line 137). -/
def mountSig : TsFunSig := ⟨[.htmlElement, .viewDefinition], .viewInstance⟩

/-- `unmount(instance: ViewInstance): void`
(`FrameworkAdapter.unmount`, `src/index.d.ts` line 143). -/
def unmountSig : TsFunSig := ⟨[.viewInstance], .void⟩

/-- `update(instance: ViewInstance, props: Record<string, unknown>): void`
(`FrameworkAdapter.update`, `src/index.d.ts` line 150). -/
def updateSig : TsFunSig := ⟨[.viewInstance, .record], .void⟩

/-- `execute<T>(commandId: string, ...args: unknown[]): Promise<T>`
(`PluginCommandsAPI.execute`, `src/index.d.ts` line 405) — the declared
asynchronous contract, for contrast with the adapter's. -/
def executeSig : TsFunSig := ⟨[.stringT, .unknown], .promise .unknown⟩

end Plurima

open Plurima

theorem sep_mem_qualify (o l : Ident) : sep ∈ qualify o l := by
  simp [qualify]

/-- C1: for every owner ID `o` and local ID `l` not containing the
separator, `resolve o (qualify o l) = qualify o l` and
`resolve o l = qualify o l`; moreover `resolve` returns any input that
already contains the separator unchanged. -/
theorem qualify_resolve_round_trip (o l : Ident) (h : sep ∉ l) :
    resolve o (qualify o l) = qualify o l ∧
    resolve o l = qualify o l ∧
    ∀ i : Ident, sep ∈ i → resolve o i = i := by
  refine ⟨?_, ?_, ?_⟩
  · simp [resolve, sep_mem_qualify]
  · simp [resolve, h]
  · intro i hi
    simp [resolve, hi]

/-- C1 witness: the round trip at owner `ext` and local ID `cmd`. -/
theorem qualify_resolve_round_trip_witness :
    resolve ['e', 'x', 't'] (qualify ['e', 'x', 't'] ['c', 'm', 'd'])
      = qualify ['e', 'x', 't'] ['c', 'm', 'd'] ∧
    resolve ['e', 'x', 't'] ['c', 'm', 'd']
      = qualify ['e', 'x', 't'] ['c', 'm', 'd'] := by
  have h := qualify_resolve_round_trip ['e', 'x', 't'] ['c', 'm', 'd'] (by decide)
  exact ⟨h.1, h.2.1⟩

/-- C2: `execute` always returns a settled future and never throws
synchronously: with no handler at the resolved fully-qualified ID the
future fails with NotFound; a handler's synchronous return value or
resolving future becomes a resolving future with the same value; a
synchronous throw or a rejecting future becomes a failed future. -/
theorem execute_total_and_uniform (r : CommandRegistry) (caller id : Ident)
    (args : List Value) :
    (findCmd r (resolve caller id) = none →
      executeCommand r caller id args = .error .notFound) ∧
    (∀ c, findCmd r (resolve caller id) = some c →
      ((∀ v, c.handler args = .value v → executeCommand r caller id args = .ok v) ∧
       (∀ v, c.handler args = .future (.ok v) →
          executeCommand r caller id args = .ok v) ∧
       (∀ e, c.handler args = .future (.error e) →
          executeCommand r caller id args = .error .handlerFailure) ∧
       (∀ e, c.handler args = .throws e →
          executeCommand r caller id args = .error .handlerFailure))) := by
  constructor
  · intro h
    simp [executeCommand, h]
  · intro c hc
    refine ⟨?_, ?_, ?_, ?_⟩ <;> intro x hx <;> simp [executeCommand, hc, hx]

/-- C2 witness: in `demoCmdRegistry`, executing `cmd` from `ext` with
arguments `1, 2` resolves to `3`, and executing `missing.cmd` fails with
NotFound. -/
theorem execute_total_and_uniform_witness :
    executeCommand demoCmdRegistry ['e', 'x', 't'] ['c', 'm', 'd']
      [.num 1, .num 2] = .ok (.num 3) ∧
    executeCommand demoCmdRegistry ['e', 'x', 't']
      ['m', 'i', 's', 's', 'i', 'n', 'g', '.', 'c', 'm', 'd'] [] =
      .error .notFound := by
  constructor
  · exact ((execute_total_and_uniform demoCmdRegistry ['e', 'x', 't'] ['c', 'm', 'd']
      [.num 1, .num 2]).2 _ rfl).1 (.num 3) rfl
  · exact (execute_total_and_uniform demoCmdRegistry ['e', 'x', 't']
      ['m', 'i', 's', 's', 'i', 'n', 'g', '.', 'c', 'm', 'd'] []).1 rfl

/-- C3: when extension `e1` owns the stored command at fully-qualified ID
`q = c.fqid`, a registration by a different extension `e2` that also
qualifies to `q` yields Conflict and leaves the registry (hence `e1`'s
registration) unchanged, while a re-registration by `e1` itself under `q`
succeeds and replaces the stored handler. -/
theorem register_conflict_and_replace (r : CommandRegistry) (e1 e2 : Ident)
    (c : Command) (d2 : CommandDefinition) (hq : findCmd r c.fqid = some c)
    (howner : c.owner = e1) (hne : e2 ≠ e1) (hq2 : qualify e2 d2.id = c.fqid) :
    registerCommand r e2 d2 = (r, some .conflict) ∧
    (∀ d1 : CommandDefinition, qualify e1 d1.id = c.fqid →
      (registerCommand r e1 d1).2 = none ∧
      findCmd (registerCommand r e1 d1).1 c.fqid =
        some { owner := e1, fqid := c.fqid, title := d1.title,
               handler := d1.handler }) := by
  constructor
  · have : (c.owner == e2) = false := by
      rw [howner]
      exact beq_false_of_ne (fun h => hne h.symm)
    simp [registerCommand, hq2, hq, this]
  · intro d1 hq1
    have hbeq : (c.owner == e1) = true := by rw [howner]; exact beq_self_eq_true e1
    have hq' : r.cmds.find? (fun x => x.fqid == c.fqid) = some c := hq
    constructor
    · simp [registerCommand, hq1, hq, hbeq]
    · simp [registerCommand, findCmd, hq1, hq', hbeq]

/-- C3 witness: in `demoConflictRegistry` (command `a.b.c` owned by `a`),
registration by extension `a.b` of local ID `c` — which also qualifies to
`a.b.c` — yields Conflict and leaves the registry unchanged, while `a`
re-registering local ID `b.c` succeeds. -/
theorem register_conflict_and_replace_witness :
    registerCommand demoConflictRegistry ['a', '.', 'b'] ⟨['c'], none, unitHandler⟩ =
      (demoConflictRegistry, some .conflict) ∧
    (registerCommand demoConflictRegistry ['a'] ⟨['b', '.', 'c'], none, unitHandler⟩).2 =
      none := by
  have h := register_conflict_and_replace demoConflictRegistry ['a'] ['a', '.', 'b']
    demoCmdA ⟨['c'], none, unitHandler⟩ rfl rfl (by decide) rfl
  exact ⟨h.1, (h.2 ⟨['b', '.', 'c'], none, unitHandler⟩ rfl).1⟩

/-- C5: for a path resolving to a leaf typed `number` with `min = 8` and
`max = 32`, `set` of `5` fails with ValidationError leaving the store
unchanged, while `set` of `10` succeeds; in general an invalid value is
reported as ValidationError and never stored. -/
theorem set_range_validation (st : SettingsState) (owner key : Ident)
    (leaf : SettingDefinition) (hleaf : findLeaf st.sections key = some leaf)
    (ht : leaf.type = .number) (hmin : leaf.min = some 8) (hmax : leaf.max = some 32) :
    (setSetting st owner key (.num 5)).2.1 = some .validationError ∧
    (setSetting st owner key (.num 5)).1 = st ∧
    (setSetting st owner key (.num 10)).2.1 = none ∧
    (∀ v, validValue leaf v = false →
      (setSetting st owner key v).2.1 = some .validationError ∧
      (setSetting st owner key v).1 = st) := by
  have h5 : validValue leaf (.num 5) = false := by
    simp [validValue, ht, hmin, hmax]
  have h10 : validValue leaf (.num 10) = true := by
    simp [validValue, ht, hmin, hmax]
  refine ⟨?_, ?_, ?_, ?_⟩
  · simp [setSetting, hleaf, h5]
  · simp [setSetting, hleaf, h5]
  · simp [setSetting, hleaf, h10]
  · intro v hv
    constructor <;> simp [setSetting, hleaf, hv]

/-- C5 witness: on the demo tree (`x.y.z` typed `number`, `min 8`,
`max 32`), `set` of `5` fails with ValidationError and `set` of `10`
succeeds. -/
theorem set_range_validation_witness :
    (setSetting demoSettings ['x'] keyXYZ (.num 5)).2.1 = some .validationError ∧
    (setSetting demoSettings ['x'] keyXYZ (.num 10)).2.1 = none := by
  have h := set_range_validation demoSettings ['x'] keyXYZ demoLeafZ rfl rfl rfl rfl
  exact ⟨h.1, h.2.2.1⟩

/-- C7: `get` returns the explicit override if present, else the declared
default of the leaf at the path, else `none` when the path does not
resolve to a known leaf; and after a successful `set` of `v`, `get`
returns `v`. -/
theorem get_resolution_order (st : SettingsState) (key : Ident) :
    (∀ o, st.overrides.find? (fun x => x.key == key) = some o →
        getSetting st key = some o.value) ∧
    (st.overrides.find? (fun x => x.key == key) = none →
      (∀ leaf, findLeaf st.sections key = some leaf →
          getSetting st key = some leaf.default) ∧
      (findLeaf st.sections key = none → getSetting st key = none)) ∧
    (∀ owner v st2 err events, setSetting st owner key v = (st2, err, events) →
        err = none → getSetting st2 key = some v) := by
  refine ⟨?_, ?_, ?_⟩
  · intro o ho
    simp [getSetting, ho]
  · intro hnone
    constructor
    · intro leaf hleaf
      simp [getSetting, hnone, hleaf]
    · intro hleaf
      simp [getSetting, hnone, hleaf]
  · intro owner v st2 err events heq herr
    subst herr
    cases hfl : findLeaf st.sections key with
    | none => simp [setSetting, hfl] at heq
    | some leaf =>
      by_cases hv : validValue leaf v = true
      · simp only [setSetting, hfl, hv, if_true] at heq
        have hst2 := congrArg Prod.fst heq
        simp only at hst2
        rw [← hst2]
        simp [getSetting, List.find?_cons]
      · simp [setSetting, hfl, hv] at heq

/-- C7 witness: on the demo tree, `get x.y.z` before any `set` returns the
declared default `14`, and after `set x.y.z 10` it returns `10`. -/
theorem get_resolution_order_witness :
    getSetting demoSettings keyXYZ = some (.num 14) ∧
    getSetting (setSetting demoSettings ['x'] keyXYZ (.num 10)).1 keyXYZ =
      some (.num 10) := by
  have h := get_resolution_order demoSettings keyXYZ
  refine ⟨(h.2.1 rfl).1 demoLeafZ rfl, ?_⟩
  exact h.2.2 ['x'] (.num 10) _ _ _ rfl rfl

theorem subs_onChange (st : SettingsState) (key : Ident) :
    (onChange st key).1.subs = st.subs ++ [{ id := st.nextSub, key := key }] := rfl

/-- C6: after subscribing on a path, every successful `set` to that path
delivers exactly one notification to the new subscriber, carrying the new
value, synchronously as part of the `set` call; after disposing the
subscription no `set` to the path notifies it any more; and disposing
twice equals disposing once. -/
theorem onChange_notify_unsubscribe (st : SettingsState) (key : Ident)
    (hfresh : ∀ s ∈ st.subs, s.id < st.nextSub) :
    (∀ owner v st2 events,
        setSetting (onChange st key).1 owner key v = (st2, none, events) →
        events.filter (fun e => e.1 == (onChange st key).2) =
          [((onChange st key).2, v)]) ∧
    (∀ owner v,
        ∀ e ∈ (setSetting (unsubscribe (onChange st key).1 (onChange st key).2)
            owner key v).2.2,
          e.1 ≠ (onChange st key).2) ∧
    unsubscribe (unsubscribe (onChange st key).1 (onChange st key).2)
        (onChange st key).2 =
      unsubscribe (onChange st key).1 (onChange st key).2 := by
  refine ⟨?_, ?_, ?_⟩
  · intro owner v st2 events heq
    simp only [onChange] at heq ⊢
    cases hfl : findLeaf st.sections key with
    | none => simp [setSetting, hfl] at heq
    | some leaf =>
      by_cases hv : validValue leaf v = true
      · simp only [setSetting, hfl, hv, if_true] at heq
        have hev := (congrArg (fun p => p.2.2) heq).symm
        simp only at hev
        subst hev
        rw [List.filter_append, List.map_append, List.filter_append]
        have h1 : ((st.subs.filter (fun s => s.key == key)).map
            (fun s : Subscriber => (s.id, v))).filter
            (fun e => e.1 == st.nextSub) = [] := by
          rw [List.filter_eq_nil_iff]
          rintro ⟨i, w⟩ hmem
          simp only [List.mem_map, List.mem_filter] at hmem
          obtain ⟨s, ⟨hs, -⟩, hpair⟩ := hmem
          have hlt := hfresh s hs
          cases hpair
          simp only [beq_iff_eq]
          omega
        rw [h1]
        simp
      · simp [setSetting, hfl, hv] at heq
  · intro owner v e he
    simp only [onChange] at he ⊢
    cases hfl : findLeaf st.sections key with
    | none => simp [unsubscribe, setSetting, hfl] at he
    | some leaf =>
      by_cases hv : validValue leaf v = true
      · simp only [unsubscribe, setSetting, hfl, hv, if_true,
          List.mem_map, List.mem_filter] at he
        obtain ⟨s, ⟨⟨hsmem, hsid⟩, hskey⟩, hpair⟩ := he
        cases hpair
        simpa using hsid
      · simp [unsubscribe, setSetting, hfl, hv] at he
  · simp only [unsubscribe]
    congr 1
    rw [List.filter_filter]
    simp

/-- C6 witness: on the demo tree, subscribing on `x.y.z` and then setting
it to `12` delivers exactly the one notification `(0, 12)` to the new
subscriber, and disposing the subscription twice equals disposing once. -/
theorem onChange_notify_unsubscribe_witness :
    (setSetting (onChange demoSettings keyXYZ).1 ['x'] keyXYZ (.num 12)).2.2.filter
        (fun e => e.1 == (onChange demoSettings keyXYZ).2) =
      [((onChange demoSettings keyXYZ).2, Value.num 12)] ∧
    unsubscribe (unsubscribe (onChange demoSettings keyXYZ).1
        (onChange demoSettings keyXYZ).2) (onChange demoSettings keyXYZ).2 =
      unsubscribe (onChange demoSettings keyXYZ).1
        (onChange demoSettings keyXYZ).2 := by
  have h := onChange_notify_unsubscribe demoSettings keyXYZ
    (by intro s hs; simp [demoSettings] at hs)
  exact ⟨h.1 ['x'] (.num 12) _ _ rfl, h.2.2⟩

/-- C9: `open` on an unregistered ID fails with NotFound; on a registered
ID with no live mounted instance it succeeds and produces exactly one
mounted instance; on a registered ID with a live mounted instance it
reuses it, leaving the state unchanged; an instance's `dispose` sets
`mounted` to `false`; `update` is accepted exactly while the instance is
mounted and is an error on an unmounted instance. -/
theorem view_instance_state_machine (vs : ViewsState) (caller viewId : Ident) :
    (findView vs (resolve caller viewId) = none →
      openView vs caller viewId = (vs, some .notFound)) ∧
    (∀ d, findView vs (resolve caller viewId) = some d →
      (mountedCount vs (resolve caller viewId) = 0 →
        (openView vs caller viewId).2 = none ∧
        mountedCount (openView vs caller viewId).1 (resolve caller viewId) = 1) ∧
      (∀ i, vs.instances.find?
          (fun i => i.viewId == resolve caller viewId && i.mounted) = some i →
        openView vs caller viewId = (vs, none))) ∧
    (∀ i : ViewInst, (disposeInst i).mounted = false) ∧
    (∀ i : ViewInst, ∀ props, i.mounted = true →
      updateInst i props = some { i with props := props }) ∧
    (∀ i : ViewInst, ∀ props, i.mounted = false → updateInst i props = none) := by
  refine ⟨?_, ?_, ?_, ?_, ?_⟩
  · intro h
    simp [openView, h]
  · intro d hd
    constructor
    · intro hcount
      have hfind : vs.instances.find?
          (fun i => i.viewId == resolve caller viewId && i.mounted) = none := by
        rw [List.find?_eq_none]
        intro i hi
        have := List.countP_eq_zero.1 hcount i hi
        simpa using this
      constructor
      · simp [openView, hd, hfind]
      · have hstep : (openView vs caller viewId).1.instances =
            { owner := d.owner, viewId := resolve caller viewId,
              props := [], mounted := true } :: vs.instances := by
          simp [openView, hd, hfind]
        have hzero : vs.instances.countP
            (fun i => i.viewId == resolve caller viewId && i.mounted) = 0 := hcount
        simp only [mountedCount, hstep, List.countP_cons, hzero]
        simp
    · intro i hi
      simp [openView, hd, hi]
  · intro i
    rfl
  · intro i props hm
    simp [updateInst, hm]
  · intro i props hm
    simp [updateInst, hm]

/-- C9 witness: on the demo view registry, opening the unregistered
`ext.none` fails with NotFound, opening the registered `ext.main`
produces exactly one mounted instance, and `update` on an unmounted
instance is an error. -/
theorem view_instance_state_machine_witness :
    openView demoViews ['e', 'x', 't'] ['n', 'o', 'n', 'e'] =
      (demoViews, some .notFound) ∧
    mountedCount (openView demoViews ['e', 'x', 't'] ['m', 'a', 'i', 'n']).1
      (resolve ['e', 'x', 't'] ['m', 'a', 'i', 'n']) = 1 ∧
    updateInst { owner := ['e', 'x', 't'], viewId := [], mounted := false } [] =
      none := by
  have h1 := view_instance_state_machine demoViews ['e', 'x', 't'] ['n', 'o', 'n', 'e']
  have h2 := view_instance_state_machine demoViews ['e', 'x', 't'] ['m', 'a', 'i', 'n']
  exact ⟨h1.1 rfl, ((h2.2.1 demoViewReg rfl).1 rfl).2,
    h2.2.2.2.2 { owner := ['e', 'x', 't'], viewId := [], mounted := false } [] rfl⟩

theorem mem_insertDesc (a p : PaletteProvider) (l : List PaletteProvider) :
    a ∈ insertDesc p l ↔ a = p ∨ a ∈ l := by
  induction l with
  | nil => simp [insertDesc]
  | cons b rest ih =>
    simp only [insertDesc]
    by_cases hb : b.priority ≥ p.priority
    · simp only [hb, if_true, List.mem_cons, ih]
      tauto
    · simp [hb, List.mem_cons]

theorem mem_foldl_insert (ps acc : List PaletteProvider) (a : PaletteProvider) :
    a ∈ ps.foldl (fun acc p => insertDesc p acc) acc ↔ a ∈ acc ∨ a ∈ ps := by
  induction ps generalizing acc with
  | nil => simp
  | cons p rest ih =>
    simp only [List.foldl_cons]
    rw [ih, mem_insertDesc, List.mem_cons]
    tauto

theorem mem_sortByPriority (ps : List PaletteProvider) (a : PaletteProvider) :
    a ∈ sortByPriority ps ↔ a ∈ ps := by
  simp [sortByPriority, mem_foldl_insert]

theorem foldl_best_eq_some (l : List PaletteProvider) (acc : Option PaletteProvider)
    (p : PaletteProvider)
    (h : l.foldl (fun acc p =>
        match acc with
        | none => some p
        | some a => if pfxLen p > pfxLen a then some p else acc) acc = some p) :
    acc = some p ∨ p ∈ l := by
  induction l generalizing acc with
  | nil => exact Or.inl h
  | cons b rest ih =>
    simp only [List.foldl_cons] at h
    rcases ih _ h with hacc | hmem
    · cases acc with
      | none =>
        simp only [] at hacc
        injection hacc with hbp
        exact Or.inr (hbp ▸ List.mem_cons_self b rest)
      | some a =>
        by_cases hgt : pfxLen b > pfxLen a
        · simp only [hgt, if_true] at hacc
          injection hacc with hbp
          exact Or.inr (hbp ▸ List.mem_cons_self b rest)
        · simp only [hgt, if_false] at hacc
          exact Or.inl hacc
    · exact Or.inr (List.mem_cons_of_mem b hmem)

theorem selectPrefixed_spec (ps : List PaletteProvider) (q : Ident)
    (p : PaletteProvider) (h : selectPrefixed ps q = some p) :
    p ∈ ps ∧ pfxMatches p q = true := by
  rcases foldl_best_eq_some _ none p h with h0 | hmem
  · cases h0
  · have hm := List.mem_filter.1 hmem
    exact ⟨hm.1, hm.2⟩

theorem mem_queried (ps : List PaletteProvider) (q : Ident) (p : PaletteProvider)
    (r : Ident) :
    (p, r) ∈ queried ps q ↔
      (p ∈ ps ∧ p.pfix = none ∧ r = q) ∨
      (selectPrefixed ps q = some p ∧ r = stripPfx q (p.pfix.getD [])) := by
  simp only [queried, List.mem_append, List.mem_map]
  constructor
  · rintro (⟨x, hx, hpair⟩ | hy)
    · rw [Prod.mk.injEq] at hpair
      obtain ⟨rfl, rfl⟩ := hpair
      rw [mem_sortByPriority] at hx
      have hm := List.mem_filter.1 hx
      exact Or.inl ⟨hm.1, Option.isNone_iff_eq_none.1 hm.2, rfl⟩
    · rcases Option.eq_none_or_eq_some (selectPrefixed ps q) with hsel | ⟨x, hsel⟩
      · rw [hsel] at hy
        simp at hy
      · rw [hsel] at hy
        simp only [List.mem_singleton, Prod.mk.injEq] at hy
        obtain ⟨h1, h2⟩ := hy
        subst h1
        exact Or.inr ⟨hsel, h2⟩
  · rintro (⟨hmem, hnone, rfl⟩ | ⟨hsel, rfl⟩)
    · refine Or.inl ⟨p, ?_, rfl⟩
      rw [mem_sortByPriority]
      exact List.mem_filter.2 ⟨hmem, by simp [hnone]⟩
    · rw [hsel]
      simp

/-- C8 counterexample: with providers of activation strings `>` and `>>`
registered together, the raw query `>>x` starts with `>` yet the
`>`-provider is not queried (the longest match `>>` wins), refuting
"queried if and only if the query starts with the prefix". -/
theorem palette_prefix_gating_counterexample :
    startsWith demoQuery ['>'] = true ∧
    demoProvGT.pfix = some ['>'] ∧
    demoProvGT ∈ demoProvs ∧
    (queried demoProvs demoQuery).filter (fun e => e.1 == demoProvGT) = [] := by
  decide

/-- C8 (amended): a provider with `prefix = null` is always queried with
the query unmodified; a provider with a non-null prefix `s` is queried
only if the query starts with `s`, and then receives the query with `s`
stripped; among the providers whose prefix matches, exactly the one
selected by longest-prefix match is queried. -/
theorem palette_prefix_gating_amended (ps : List PaletteProvider) (q : Ident)
    (p : PaletteProvider) :
    (p ∈ ps → p.pfix = none → (p, q) ∈ queried ps q) ∧
    (∀ r, (p, r) ∈ queried ps q → ∀ s, p.pfix = some s →
      startsWith q s = true ∧ r = stripPfx q s) ∧
    (∀ s, p.pfix = some s → selectPrefixed ps q = some p →
      (p, stripPfx q s) ∈ queried ps q) ∧
    (∀ r, (p, r) ∈ queried ps q → p.pfix = none → r = q) := by
  refine ⟨?_, ?_, ?_, ?_⟩
  · intro hmem hnone
    exact (mem_queried ps q p q).2 (Or.inl ⟨hmem, hnone, rfl⟩)
  · intro r hr s hs
    rcases (mem_queried ps q p r).1 hr with ⟨-, hnone, -⟩ | ⟨hsel, hstr⟩
    · rw [hnone] at hs
      cases hs
    · have hm := (selectPrefixed_spec ps q p hsel).2
      rw [pfxMatches, hs] at hm
      exact ⟨hm, by rw [hstr, hs]; rfl⟩
  · intro s hs hsel
    refine (mem_queried ps q p (stripPfx q s)).2 (Or.inr ⟨hsel, ?_⟩)
    rw [hs]
    rfl
  · intro r hr hnone
    rcases (mem_queried ps q p r).1 hr with ⟨-, -, hq⟩ | ⟨hsel, -⟩
    · exact hq
    · have hm := (selectPrefixed_spec ps q p hsel).2
      rw [pfxMatches, hnone] at hm
      cases hm

/-- C8 witness: for the query `>>x` the provider with activation string
`>>` is selected and queried with the stripped query `x`. -/
theorem palette_prefix_gating_amended_witness :
    (demoProvGG, ['x']) ∈ queried demoProvs demoQuery := by
  have h := palette_prefix_gating_amended demoProvs demoQuery demoProvGG
  exact h.2.2.1 ['>', '>'] rfl (by decide)

theorem key_inj_of_pairwise {α : Type} (key : α → Ident) (l : List α)
    (hu : l.Pairwise (fun a b => key a ≠ key b)) :
    ∀ a ∈ l, ∀ b ∈ l, key a = key b → a = b := by
  induction l with
  | nil => intro a ha; cases ha
  | cons c rest ih =>
    rw [List.pairwise_cons] at hu
    intro a ha b hb hk
    rcases List.mem_cons.1 ha with rfl | ha2
    · rcases List.mem_cons.1 hb with rfl | hb2
      · rfl
      · exact absurd hk (hu.1 b hb2)
    · rcases List.mem_cons.1 hb with rfl | hb2
      · exact absurd hk.symm (hu.1 a ha2)
      · exact ih hu.2 a ha2 b hb2 hk

theorem find_of_mem_pairwise {α : Type} (key : α → Ident) (l : List α) (c : α)
    (hu : l.Pairwise (fun a b => key a ≠ key b)) (hc : c ∈ l) :
    l.find? (fun a => key a == key c) = some c := by
  induction l with
  | nil => cases hc
  | cons b rest ih =>
    rw [List.pairwise_cons] at hu
    rcases List.mem_cons.1 hc with rfl | hc2
    · exact List.find?_cons_of_pos _ (by simp)
    · have hne : key b ≠ key c := hu.1 c hc2
      rw [List.find?_cons_of_neg _ (by simpa using hne)]
      exact ih hu.2 hc2

theorem find_filter_none {α : Type} (key : α → Ident) (excl : α → Bool) (l : List α)
    (c : α) (hu : l.Pairwise (fun a b => key a ≠ key b)) (hc : c ∈ l)
    (hex : excl c = false) :
    (l.filter excl).find? (fun a => key a == key c) = none := by
  rw [List.find?_eq_none]
  intro a ha hpa
  have hmem := List.mem_filter.1 ha
  have hk : key a = key c := by simpa using hpa
  have hac : a = c := key_inj_of_pairwise key l hu a hmem.1 c hc hk
  have h2 := hmem.2
  rw [hac, hex] at h2
  cases h2

theorem find_filter_some {α : Type} (key : α → Ident) (excl : α → Bool) (l : List α)
    (c : α) (hu : l.Pairwise (fun a b => key a ≠ key b)) (hc : c ∈ l)
    (hex : excl c = true) :
    (l.filter excl).find? (fun a => key a == key c) = some c := by
  apply find_of_mem_pairwise
  · exact List.Pairwise.sublist (List.filter_sublist l) hu
  · exact List.mem_filter.2 ⟨hc, hex⟩

/-- C4: after unloading extension `e` (under registry well-formedness),
every command, view, settings override and palette provider owned by `e`
is unreachable — lookup and `execute`/`open` against its former
fully-qualified IDs fail with NotFound, the override is gone (and `get`
yields `none` once the key no longer resolves), and the provider is never
queried — while every entity owned by another extension is unchanged. -/
theorem unload_cascade_and_frame (h : HostState) (e : Ident) (hwf : HostWF h) :
    (∀ c ∈ h.commands.cmds, c.owner = e →
      findCmd (unloadExtension h e).commands c.fqid = none ∧
      ∀ caller id args, resolve caller id = c.fqid →
        executeCommand (unloadExtension h e).commands caller id args =
          .error .notFound) ∧
    (∀ c ∈ h.commands.cmds, c.owner ≠ e →
      findCmd (unloadExtension h e).commands c.fqid = some c) ∧
    (∀ d ∈ h.views.defs, d.owner = e →
      ∀ caller id, resolve caller id = d.fqid →
        openView (unloadExtension h e).views caller id =
          ((unloadExtension h e).views, some .notFound)) ∧
    (∀ d ∈ h.views.defs, d.owner ≠ e →
      findView (unloadExtension h e).views d.fqid = some d) ∧
    (∀ i ∈ h.views.instances,
      (i.owner = e → i ∉ (unloadExtension h e).views.instances) ∧
      (i.owner ≠ e → i ∈ (unloadExtension h e).views.instances)) ∧
    (∀ o ∈ h.settings.overrides, o.owner = e →
      (unloadExtension h e).settings.overrides.find? (fun x => x.key == o.key) =
        none ∧
      (findLeaf (unloadExtension h e).settings.sections o.key = none →
        getSetting (unloadExtension h e).settings o.key = none)) ∧
    (∀ o ∈ h.settings.overrides, o.owner ≠ e →
      getSetting h.settings o.key = some o.value ∧
      getSetting (unloadExtension h e).settings o.key = some o.value) ∧
    (∀ p ∈ h.providers,
      (p.owner = e → p ∉ (unloadExtension h e).providers ∧
        ∀ q r, (p, r) ∉ queried (unloadExtension h e).providers q) ∧
      (p.owner ≠ e → p ∈ (unloadExtension h e).providers)) := by
  obtain ⟨hwc, hwv, hwo⟩ := hwf
  refine ⟨?_, ?_, ?_, ?_, ?_, ?_, ?_, ?_⟩
  · intro c hc hco
    have hgone : findCmd (unloadExtension h e).commands c.fqid = none :=
      find_filter_none Command.fqid (fun x => x.owner != e) h.commands.cmds c
        hwc hc (by simp [hco])
    refine ⟨hgone, ?_⟩
    intro caller id args hres
    simp only [executeCommand, hres, hgone]
  · intro c hc hco
    exact find_filter_some Command.fqid (fun x => x.owner != e) h.commands.cmds c
      hwc hc (by simpa using hco)
  · intro d hd hdo caller id hres
    have hgone : findView (unloadExtension h e).views d.fqid = none :=
      find_filter_none ViewReg.fqid (fun x => x.owner != e) h.views.defs d
        hwv hd (by simp [hdo])
    simp only [openView, hres, hgone]
  · intro d hd hdo
    exact find_filter_some ViewReg.fqid (fun x => x.owner != e) h.views.defs d
      hwv hd (by simpa using hdo)
  · intro i hi
    constructor
    · intro hio hmem
      have h2 := (List.mem_filter.1 hmem).2
      rw [hio] at h2
      simp at h2
    · intro hio
      exact List.mem_filter.2 ⟨hi, by simpa using hio⟩
  · intro o ho hoo
    have hgone : (unloadExtension h e).settings.overrides.find?
        (fun x => x.key == o.key) = none :=
      find_filter_none SettingOverride.key (fun x => x.owner != e)
        h.settings.overrides o hwo ho (by simp [hoo])
    refine ⟨hgone, ?_⟩
    intro hleaf
    simp [getSetting, hgone, hleaf]
  · intro o ho hoo
    have h1 : h.settings.overrides.find? (fun x => x.key == o.key) = some o :=
      find_of_mem_pairwise SettingOverride.key h.settings.overrides o hwo ho
    have h2 : (unloadExtension h e).settings.overrides.find?
        (fun x => x.key == o.key) = some o :=
      find_filter_some SettingOverride.key (fun x => x.owner != e)
        h.settings.overrides o hwo ho (by simpa using hoo)
    exact ⟨by simp [getSetting, h1], by simp [getSetting, h2]⟩
  · intro p hp
    constructor
    · intro hpo
      have hnot : p ∉ (unloadExtension h e).providers := by
        intro hmem
        have h2 := (List.mem_filter.1 hmem).2
        rw [hpo] at h2
        simp at h2
      refine ⟨hnot, ?_⟩
      intro q r hq
      rcases (mem_queried _ q p r).1 hq with ⟨hmem, -, -⟩ | ⟨hsel, -⟩
      · exact hnot hmem
      · exact hnot (selectPrefixed_spec _ q p hsel).1
    · intro hpo
      exact List.mem_filter.2 ⟨hp, by simpa using hpo⟩

/-- C4 witness: unloading extension `a` from the demo host makes its
command, view, override and provider unreachable, while extension `b`'s
command, view, override and provider are untouched. -/
theorem unload_cascade_and_frame_witness :
    findCmd (unloadExtension demoHost ['a']).commands demoCmdHostA.fqid = none ∧
    findCmd (unloadExtension demoHost ['a']).commands demoCmdHostB.fqid =
      some demoCmdHostB ∧
    openView (unloadExtension demoHost ['a']).views ['a'] ['v'] =
      ((unloadExtension demoHost ['a']).views, some .notFound) ∧
    findView (unloadExtension demoHost ['a']).views demoViewHostB.fqid =
      some demoViewHostB ∧
    getSetting (unloadExtension demoHost ['a']).settings keyHostA = none ∧
    getSetting (unloadExtension demoHost ['a']).settings keyHostB =
      some (.num 10) ∧
    demoProvHostA ∉ (unloadExtension demoHost ['a']).providers ∧
    demoProvHostB ∈ (unloadExtension demoHost ['a']).providers := by
  have hwf : HostWF demoHost := by
    refine ⟨?_, ?_, ?_⟩ <;>
      simp [demoHost, demoCmdHostA, demoCmdHostB, demoViewHostA, demoViewHostB,
        demoOvrHostA, demoOvrHostB, List.pairwise_cons] <;> decide
  have h := unload_cascade_and_frame demoHost ['a'] hwf
  refine ⟨?_, ?_, ?_, ?_, ?_, ?_, ?_, ?_⟩
  · exact (h.1 demoCmdHostA (by simp [demoHost]) rfl).1
  · exact h.2.1 demoCmdHostB (by simp [demoHost]) (by decide)
  · exact h.2.2.1 demoViewHostA (by simp [demoHost]) rfl ['a'] ['v'] rfl
  · exact h.2.2.2.1 demoViewHostB (by simp [demoHost]) (by decide)
  · exact (h.2.2.2.2.2.1 demoOvrHostA (by simp [demoHost]) rfl).2 (by decide)
  · exact (h.2.2.2.2.2.2.1 demoOvrHostB (by simp [demoHost]) (by decide)).2
  · exact ((h.2.2.2.2.2.2.2 demoProvHostA (by simp [demoHost])).1 rfl).1
  · exact (h.2.2.2.2.2.2.2 demoProvHostB (by simp [demoHost])).2 (by decide)

/-- C10: the declared `FrameworkAdapter` contract is fully synchronous —
`mount` returns a `ViewInstance` directly and not a `Promise`, and
`unmount` and `update` return `void` and not a `Promise` — unlike the
declared `execute`, which does return a `Promise`; so at this interface
mounting, unmounting and prop updates cannot suspend, and callers observe
the `ViewInstance` immediately on mount. -/
theorem adapter_contract_synchronous :
    mountSig.ret = TsType.viewInstance ∧
    (∀ t, mountSig.ret ≠ TsType.promise t) ∧
    unmountSig.ret = TsType.void ∧
    (∀ t, unmountSig.ret ≠ TsType.promise t) ∧
    updateSig.ret = TsType.void ∧
    (∀ t, updateSig.ret ≠ TsType.promise t) ∧
    (∃ t, executeSig.ret = TsType.promise t) := by
  refine ⟨rfl, ?_, rfl, ?_, rfl, ?_, ⟨TsType.unknown, rfl⟩⟩ <;>
    intro t <;> simp [mountSig, unmountSig, updateSig]
